import Mathlib

/-!
Verification of the `ansible-kheops` collection's shared helper component
(`plugins/plugin_utils/common.py`).

The Python code is shallowly embedded: Python values that flow through the
configuration / key-parsing / lookup code are modelled by the inductive
`PyVal` (mappings are association lists in insertion order, as Python dicts
are), fallible code returns `Except PyErr`, the external Kheops backend and
the Jinja template engine are abstract function parameters, and the process
environment and file system are abstract functions `String → Option _`.
-/

set_option maxHeartbeats 1000000

/-- Python runtime values, as used by the plugin code: `None`, booleans,
integers, strings, lists, and (string-insertion-ordered) dicts. Dicts are
modelled as association lists; Python preserves insertion order and the
code under verification only ever builds dicts with distinct keys. -/
inductive PyVal where
  | none
  | bool (b : Bool)
  | int (n : Int)
  | str (s : String)
  | list (xs : List PyVal)
  | dict (xs : List (PyVal × PyVal))

mutual

/-- Structural boolean equality on `PyVal` (Python `==` restricted to the
value shapes above; the numeric `bool`/`int` cross-equality of Python is
not needed by any code path modelled here, which compares strings and
`None` only). -/
def PyVal.beq : PyVal → PyVal → Bool
  | .none, .none => true
  | .bool a, .bool b => a == b
  | .int a, .int b => a == b
  | .str a, .str b => a == b
  | .list a, .list b => pyBeqList a b
  | .dict a, .dict b => pyBeqPairs a b
  | _, _ => false

def pyBeqList : List PyVal → List PyVal → Bool
  | [], [] => true
  | x :: xs, y :: ys => x.beq y && pyBeqList xs ys
  | _, _ => false

def pyBeqPairs : List (PyVal × PyVal) → List (PyVal × PyVal) → Bool
  | [], [] => true
  | (k, v) :: xs, (k', v') :: ys => k.beq k' && v.beq v' && pyBeqPairs xs ys
  | _, _ => false

end

mutual

theorem PyVal.eq_of_beq : ∀ {a b : PyVal}, a.beq b = true → a = b
  | .none, .none, _ => rfl
  | .bool _, .bool _, h => by simpa [PyVal.beq] using h
  | .int _, .int _, h => by simpa [PyVal.beq] using h
  | .str _, .str _, h => by simpa [PyVal.beq] using h
  | .list a, .list b, h => by
      rw [pyListEq_of_beq (a := a) (b := b) (by simpa [PyVal.beq] using h)]
  | .dict a, .dict b, h => by
      rw [pyPairsEq_of_beq (a := a) (b := b) (by simpa [PyVal.beq] using h)]
  | .none, .bool _, h => by simp [PyVal.beq] at h
  | .none, .int _, h => by simp [PyVal.beq] at h
  | .none, .str _, h => by simp [PyVal.beq] at h
  | .none, .list _, h => by simp [PyVal.beq] at h
  | .none, .dict _, h => by simp [PyVal.beq] at h
  | .bool _, .none, h => by simp [PyVal.beq] at h
  | .bool _, .int _, h => by simp [PyVal.beq] at h
  | .bool _, .str _, h => by simp [PyVal.beq] at h
  | .bool _, .list _, h => by simp [PyVal.beq] at h
  | .bool _, .dict _, h => by simp [PyVal.beq] at h
  | .int _, .none, h => by simp [PyVal.beq] at h
  | .int _, .bool _, h => by simp [PyVal.beq] at h
  | .int _, .str _, h => by simp [PyVal.beq] at h
  | .int _, .list _, h => by simp [PyVal.beq] at h
  | .int _, .dict _, h => by simp [PyVal.beq] at h
  | .str _, .none, h => by simp [PyVal.beq] at h
  | .str _, .bool _, h => by simp [PyVal.beq] at h
  | .str _, .int _, h => by simp [PyVal.beq] at h
  | .str _, .list _, h => by simp [PyVal.beq] at h
  | .str _, .dict _, h => by simp [PyVal.beq] at h
  | .list _, .none, h => by simp [PyVal.beq] at h
  | .list _, .bool _, h => by simp [PyVal.beq] at h
  | .list _, .int _, h => by simp [PyVal.beq] at h
  | .list _, .str _, h => by simp [PyVal.beq] at h
  | .list _, .dict _, h => by simp [PyVal.beq] at h
  | .dict _, .none, h => by simp [PyVal.beq] at h
  | .dict _, .bool _, h => by simp [PyVal.beq] at h
  | .dict _, .int _, h => by simp [PyVal.beq] at h
  | .dict _, .str _, h => by simp [PyVal.beq] at h
  | .dict _, .list _, h => by simp [PyVal.beq] at h

theorem pyListEq_of_beq : ∀ {a b : List PyVal}, pyBeqList a b = true → a = b
  | [], [], _ => rfl
  | x :: xs, y :: ys, h => by
      have h' := h
      simp only [pyBeqList, Bool.and_eq_true] at h'
      rw [PyVal.eq_of_beq h'.1, pyListEq_of_beq h'.2]
  | [], _ :: _, h => by simp [pyBeqList] at h
  | _ :: _, [], h => by simp [pyBeqList] at h

theorem pyPairsEq_of_beq : ∀ {a b : List (PyVal × PyVal)}, pyBeqPairs a b = true → a = b
  | [], [], _ => rfl
  | (k, v) :: xs, (k', v') :: ys, h => by
      have h' := h
      simp only [pyBeqPairs, Bool.and_eq_true] at h'
      rw [PyVal.eq_of_beq h'.1.1, PyVal.eq_of_beq h'.1.2, pyPairsEq_of_beq h'.2]
  | [], _ :: _, h => by simp [pyBeqPairs] at h
  | _ :: _, [], h => by simp [pyBeqPairs] at h

end

mutual

theorem PyVal.beq_refl : ∀ (a : PyVal), a.beq a = true
  | .none => rfl
  | .bool _ => by simp [PyVal.beq]
  | .int _ => by simp [PyVal.beq]
  | .str _ => by simp [PyVal.beq]
  | .list a => by simp [PyVal.beq, pyListBeq_refl a]
  | .dict a => by simp [PyVal.beq, pyPairsBeq_refl a]

theorem pyListBeq_refl : ∀ (a : List PyVal), pyBeqList a a = true
  | [] => rfl
  | x :: xs => by simp [pyBeqList, PyVal.beq_refl x, pyListBeq_refl xs]

theorem pyPairsBeq_refl : ∀ (a : List (PyVal × PyVal)), pyBeqPairs a a = true
  | [] => rfl
  | (k, v) :: xs => by simp [pyBeqPairs, PyVal.beq_refl k, PyVal.beq_refl v, pyPairsBeq_refl xs]

end

instance : DecidableEq PyVal := fun a b =>
  decidable_of_iff (PyVal.beq a b = true)
    ⟨PyVal.eq_of_beq, fun h => h ▸ PyVal.beq_refl a⟩

mutual

/-- Python `repr()` on the modelled values (used by `str()` on containers,
and by f-string interpolation of non-string values). -/
def PyVal.pyRepr : PyVal → String
  | .none => "None"
  | .bool b => if b then "True" else "False"
  | .int n => toString n
  | .str s => "'" ++ s ++ "'"
  | .list xs => "[" ++ pyReprList xs ++ "]"
  | .dict xs => "\x7b" ++ pyReprPairs xs ++ "\x7d"

def pyReprList : List PyVal → String
  | [] => ""
  | [x] => x.pyRepr
  | x :: y :: rest => x.pyRepr ++ ", " ++ pyReprList (y :: rest)

def pyReprPairs : List (PyVal × PyVal) → String
  | [] => ""
  | [(k, v)] => k.pyRepr ++ ": " ++ v.pyRepr
  | (k, v) :: y :: rest => k.pyRepr ++ ": " ++ v.pyRepr ++ ", " ++ pyReprPairs (y :: rest)

end

/-- Python `str()`: identity on strings, `repr`-like elsewhere. This gives
f-string interpolation semantics, e.g. in `Key.show` and in the composite
key string built by `parse_keys`. -/
def pyStr : PyVal → String
  | .str s => s
  | v => v.pyRepr

/-- Python truthiness of the modelled values (`bool(x)`): `None`, `False`,
`0`, the empty string, the empty list and the empty dict are falsy. -/
def PyVal.truthy : PyVal → Bool
  | .none => false
  | .bool b => b
  | .int n => n != 0
  | .str s => !s.isEmpty
  | .list xs => !xs.isEmpty
  | .dict xs => !xs.isEmpty

/-- A Python dict in insertion order, as the plugin code uses them. -/
abbrev PDict := List (PyVal × PyVal)

/-- Python `d.get(k)` / `d[k]` lookup: first (and, for dicts built by the
modelled code, only) entry with the given key. -/
def pdGet : PDict → PyVal → Option PyVal
  | [], _ => Option.none
  | (a, w) :: rest, k => if a = k then some w else pdGet rest k

/-- Python `d[k] = v`: replace the value in place if the key is present,
otherwise append the new entry (insertion order). -/
def pdSet : PDict → PyVal → PyVal → PDict
  | [], k, v => [(k, v)]
  | (a, w) :: rest, k, v => if a = k then (a, v) :: rest else (a, w) :: pdSet rest k v

/-- Python `del d[k]` (every `del` in the modelled code follows a successful
read of the same key, so the key is present). -/
def pdDel : PDict → PyVal → PDict
  | [], _ => []
  | (a, w) :: rest, k => if a = k then rest else (a, w) :: pdDel rest k

/-- Python `d1.update(d2)`: fold `d1[k] = v` over `d2` in order. -/
def pdUpdate (d1 : PDict) : PDict → PDict
  | [] => d1
  | (k, v) :: rest => pdUpdate (pdSet d1 k v) rest

/-- Python `s.split(sep, maxsplit)` worker for a one-character separator,
over the character list; once `maxsplit` splits have been made the rest of
the string (separators included) becomes the final part. -/
def pySplitAux (sep : Char) : List Char → Nat → List Char → List String
  | [], _, acc => [String.mk acc.reverse]
  | c :: cs, n, acc =>
    if c = sep then
      match n with
      | 0 => pySplitAux sep cs 0 (c :: acc)
      | Nat.succ m => String.mk acc.reverse :: pySplitAux sep cs m []
    else pySplitAux sep cs n (c :: acc)

/-- Python `s.split(sep, maxsplit)` for a one-character separator (the only
shape the code uses: `KEY_NS_SEP` is the single character `/`). -/
def pySplit (s : String) (sep : Char) (maxsplit : Nat) : List String :=
  pySplitAux sep s.data maxsplit []

/-- Exceptions raised by the modelled code paths: `AnsibleError`,
`AnsibleUndefinedVariable`, Python `KeyError` / `AssertionError` /
`AttributeError`, and any other propagating evaluation exception. -/
inductive PyErr where
  | ansibleError (msg : String)
  | undefinedVariable (msg : String)
  | keyError (k : PyVal)
  | assertionError (msg : String)
  | attributeError (msg : String)
  | exception (msg : String)
  deriving DecidableEq

/-- `Except` bind, spelled out so proofs can unfold it predictably. -/
def ebind {α β : Type} (x : Except PyErr α) (f : α → Except PyErr β) : Except PyErr β :=
  match x with
  | .error e => .error e
  | .ok a => f a

@[simp] theorem ebind_ok {α β : Type} (a : α) (f : α → Except PyErr β) :
    ebind (.ok a) f = f a := rfl

@[simp] theorem ebind_error {α β : Type} (e : PyErr) (f : α → Except PyErr β) :
    ebind (.error e) f = .error e := rfl

/-- `KEY_NS_SEP = "/"` (common.py line 194). -/
def KEY_NS_SEP : String := "/"

/-- The `Key` dataclass (common.py lines 199-209). The source's field
`namespace` is called `ns` here (`namespace` is a Lean keyword); fields
hold arbitrary Python values, as the dataclass does at runtime (`key` and
`remap` are `None` when unset). -/
structure Key where
  key : PyVal
  remap : PyVal
  ns : PyVal
  deriving DecidableEq

/-- `Key.show` (common.py lines 205-209): the fully qualified key string
sent to the backend; `None` namespace means the bare key object. -/
def Key.render (k : Key) : PyVal :=
  if k.ns = PyVal.none then k.key
  else .str (pyStr k.ns ++ KEY_NS_SEP ++ pyStr k.key)

/-- `AnsibleKheops.parse_string` (common.py lines 313-335): dispatch on the
shape of `item`. A string is split on `KEY_NS_SEP` with maxsplit 3; the
sequential `if len(parts) > ...` updates collapse to the match below. A
dict reads `key` / `remap` (default `key`) / `namespace` (default the
given default namespace). Any other shape leaves `key = None`. -/
def parse_string (item : PyVal) (default_ns : PyVal) : Key :=
  match item with
  | .str s =>
    match pySplit s '/' 3 with
    | [] => { key := .none, remap := .none, ns := default_ns }
    | [p0] => { key := .str p0, remap := .none, ns := default_ns }
    | [p0, p1] => { key := .str p1, remap := .none, ns := .str p0 }
    | p0 :: p1 :: p2 :: _ => { key := .str p1, remap := .str p2, ns := .str p0 }
  | .dict d =>
    let key := (pdGet d (.str "key")).getD .none
    { key := key
      remap := (pdGet d (.str "remap")).getD key
      ns := (pdGet d (.str "namespace")).getD default_ns }
  | _ => { key := .none, remap := .none, ns := default_ns }

/-- Loop body of the dict branch of `AnsibleKheops.parse_keys`
(common.py lines 346-353): for each `(k, v)` pair in order, a truthy `v`
must be a string (`assert isinstance(value, str)`) and yields the
composite string `f"{key}{KEY_NS_SEP}{value}"`; a falsy `v` yields the
bare dict key `k`. -/
def parse_keys_dict_go (default_ns : PyVal) : List (PyVal × PyVal) → Except PyErr (List Key)
  | [] => .ok []
  | (k, v) :: rest =>
    if v.truthy then
      match v with
      | .str _ =>
        ebind (parse_keys_dict_go default_ns rest) fun ks =>
          .ok (parse_string (.str (pyStr k ++ KEY_NS_SEP ++ pyStr v)) default_ns :: ks)
      | _ => .error (.assertionError ("Need a string, got: " ++ pyStr v))
    else
      ebind (parse_keys_dict_go default_ns rest) fun ks =>
        .ok (parse_string k default_ns :: ks)

/-- `AnsibleKheops.parse_keys` (common.py lines 337-358): a string is a
one-element key list, a list is parsed elementwise in order, a dict goes
through `parse_keys_dict_go`, and anything else raises `AnsibleError`
(the f-string interpolates the still-empty accumulator `keys`, hence the
literal `[]` in the message). -/
def parse_keys (data : PyVal) (default_ns : PyVal) : Except PyErr (List Key) :=
  match data with
  | .str _ => .ok [parse_string data default_ns]
  | .list items => .ok (items.map (fun item => parse_string item default_ns))
  | .dict pairs => parse_keys_dict_go default_ns pairs
  | _ => .error (.ansibleError "Unable to process Kheops keys: []")

/-- The flat default configuration extracted from the YAML option schema
`DOCUMENTATION_OPTION_FRAGMENT` (common.py lines 22-191, 256-260):
`{key: value.get("default", None)}` for each declared option, in document
order. -/
def default_config : PDict :=
  [ (.str "config", .none),
    (.str "mode", .str "instance"),
    (.str "instance_config", .str "site/kheops.yml"),
    (.str "instance_namespace", .str "default"),
    (.str "instance_log_level", .str "WARNING"),
    (.str "instance_explain", .bool false),
    (.str "namespace", .str "default"),
    (.str "scope", .dict [(.str "node", .str "inventory_hostname"),
                          (.str "groups", .str "group_names")]),
    (.str "keys", .none),
    (.str "process_scope", .str "jinja"),
    (.str "process_results", .str "none"),
    (.str "jinja2_native", .bool false) ]

/-- The fixed allow-list of environment-overridable options
(common.py lines 287-296; `config` is deliberately excluded). -/
def env_items : List String :=
  ["mode", "instance_config", "instance_namespace", "instance_log_level",
   "namespace", "scope", "keys"]

/-- Python `item.upper()` for the ASCII option names involved. -/
def pyUpper (s : String) : String := String.mk (s.data.map Char.toUpper)

/-- The environment variable probed for an option:
`"ANSIBLE_KHEOPS_" + item.upper()` (common.py line 299). -/
def kheops_envvar (item : String) : String := "ANSIBLE_KHEOPS_" ++ pyUpper item

/-- The env-override loop of `get_config` (common.py lines 297-303):
`env_config[item] = os.environ[envvar]` for each allow-listed item whose
variable is set; a missing variable is skipped. -/
def env_config_go (env : String → Option String) : List String → PDict → PDict
  | [], acc => acc
  | item :: rest, acc =>
    match env (kheops_envvar item) with
    | some v => env_config_go env rest (pdSet acc (.str item) (.str v))
    | Option.none => env_config_go env rest acc

def env_config (env : String → Option String) : PDict :=
  env_config_go env env_items []

/-- The source-merging loop of `get_config` (common.py lines 262-284) over
`self.configs`, with the file system abstracted as `fs : path ↦ parsed
YAML document` (`None` = no such file). A string source is loaded from
`fs` (missing file raises `AnsibleError`, a non-dict document fails the
`assert isinstance(conf_data, dict)`); a dict source merges directly; a
`None` source is skipped; any other shape fails `assert False`. -/
def load_sources_go (fs : String → Option PyVal) (acc : PDict) :
    List PyVal → Except PyErr PDict
  | [] => .ok acc
  | c :: rest =>
    match c with
    | .str p =>
      match fs p with
      | some content =>
        match content with
        | .dict d => load_sources_go fs (pdUpdate acc d) rest
        | _ => .error (.assertionError ("Bug with conf_data: " ++ pyStr content))
      | Option.none => .error (.ansibleError ("Unable to find configuration file " ++ p))
    | .dict d => load_sources_go fs (pdUpdate acc d) rest
    | .none => load_sources_go fs acc rest
    | other => .error (.assertionError ("Bad config for: " ++ pyStr other))

def load_sources (fs : String → Option PyVal) (configs : List PyVal) :
    Except PyErr PDict :=
  load_sources_go fs [] configs

/-- `AnsibleKheops.get_config` (common.py lines 248-311): schema defaults,
then the environment overrides, then the merged sources, layered into one
dict by successive `update` (later layers win on shared keys). -/
def get_config (configs : List PyVal) (env : String → Option String)
    (fs : String → Option PyVal) : Except PyErr PDict :=
  match load_sources fs configs with
  | .error e => .error e
  | .ok merged =>
    .ok (pdUpdate (pdUpdate (pdUpdate [] default_config) (env_config env)) merged)

/-- Python `self.config[name]` (dict indexing): `KeyError` when absent. -/
def cfgItem (cfg : PDict) (name : String) : Except PyErr PyVal :=
  match pdGet cfg (.str name) with
  | some v => .ok v
  | Option.none => .error (.keyError (.str name))

/-- One iteration of the remap loop of `AnsibleKheops.lookup`
(common.py lines 435-438): when `remap` is set and differs from `key`,
`ret[key.remap] = ret[key.key]` (a `KeyError` when the backend result has
no entry under the bare `key`) followed by `del ret[key.key]`. -/
def remap_step (ret : PDict) (k : Key) : Except PyErr PDict :=
  if k.remap = PyVal.none then .ok ret
  else if k.remap = k.key then .ok ret
  else
    match pdGet ret k.key with
    | some v => .ok (pdDel (pdSet ret k.remap v) k.key)
    | Option.none => .error (.keyError k.key)

def remapAll : List Key → PDict → Except PyErr PDict
  | [], ret => .ok ret
  | k :: rest, ret => ebind (remap_step ret k) fun ret => remapAll rest ret

/-- `AnsibleKheops.lookup` (common.py lines 409-440). The external backend
`self.kheops.lookup(keys=…, scope=…, explain=…, namespace_prefix=False)`
is the abstract function `backend` (its `namespace_prefix` argument is the
constant `False` and is folded into `backend`). `explain` falls back to
`config["instance_explain"]` only when it is `None`; `namespace`, `scope`
and `keys` fall back to their configured defaults whenever falsy (`or`).
The parsed key specs are rendered with `Key.show` for the query, and the
backend result is then remapped and returned (`ret or {}`). -/
def lookup (cfg : PDict) (backend : List PyVal → PyVal → PyVal → PDict)
    (keys nsArg scope explain : PyVal) : Except PyErr PDict :=
  ebind (if explain = PyVal.none then cfgItem cfg "instance_explain" else .ok explain)
    fun explain =>
  ebind (if nsArg.truthy then .ok nsArg else cfgItem cfg "namespace") fun nsv =>
  ebind (if scope.truthy then .ok scope else cfgItem cfg "scope") fun scope =>
  ebind (if keys.truthy then .ok keys else cfgItem cfg "keys") fun keys =>
  ebind (parse_keys keys nsv) fun keys_config =>
  let ret := backend (keys_config.map Key.render) scope explain
  ebind (remapAll keys_config ret) fun ret =>
  .ok (if ret.isEmpty then [] else ret)

/-- Outcome of one call into the abstract Jinja template engine
(`templar.template(value, …)` with the host variables in scope):
a rendered value, an `AnsibleUndefinedVariable`, or any other
evaluation exception. -/
inductive TplResult where
  | ok (v : PyVal)
  | undef (msg : String)
  | err (msg : String)

/-- Loop body of `AnsibleKheops.get_scope_from_jinja`
(common.py lines 387-405): each field is templated in order;
`AnsibleUndefinedVariable` is caught, logged and re-raised, and any other
exception propagates out of the loop uncaught — either way the whole
scope build fails; only a successful render assigns `ret[key]`. -/
def scope_from_jinja_go (tpl : PyVal → TplResult) :
    List (PyVal × PyVal) → PDict → Except PyErr PDict
  | [], acc => .ok acc
  | (k, v) :: rest, acc =>
    match tpl v with
    | .ok res => scope_from_jinja_go tpl rest (pdSet acc k res)
    | .undef m => .error (.undefinedVariable m)
    | .err m => .error (.exception m)

/-- `AnsibleKheops.get_scope_from_jinja` (common.py lines 372-407): the
scope spec falls back to `config["scope"]` when falsy; templating the
fields (the deep-copied host variables, the temporary templar context and
the native-Jinja wrapping are folded into the abstract `tpl`). Iterating
`scope.items()` requires a dict. -/
def get_scope_from_jinja (cfg : PDict) (tpl : PyVal → TplResult) (scope : PyVal) :
    Except PyErr PDict :=
  ebind (if scope.truthy then .ok scope else cfgItem cfg "scope") fun scope =>
  match scope with
  | .dict pairs => scope_from_jinja_go tpl pairs []
  | other => .error (.attributeError ("items on " ++ pyStr other))

/-- Loop body of `AnsibleKheops.get_scope_from_host_inventory`
(common.py lines 365-369): `ret[key] = host_vars.get(val, None)`. -/
def scope_from_vars_go (host_vars : PDict) :
    List (PyVal × PyVal) → PDict → PDict
  | [], acc => acc
  | (k, v) :: rest, acc =>
    scope_from_vars_go host_vars rest (pdSet acc k ((pdGet host_vars v).getD .none))

/-- `AnsibleKheops.get_scope_from_host_inventory` (common.py
lines 360-370): direct variable lookup, never failing on missing
variables. -/
def get_scope_from_host_inventory (cfg : PDict) (host_vars : PDict) (scope : PyVal) :
    Except PyErr PDict :=
  ebind (if scope.truthy then .ok scope else cfgItem cfg "scope") fun scope =>
  match scope with
  | .dict pairs => .ok (scope_from_vars_go host_vars pairs [])
  | other => .error (.attributeError ("items on " ++ pyStr other))

/-- `AnsibleKheops.super_lookup` (common.py lines 442-483). The
`_process_scope` / `_process_results` selectors and the scope spec fall
back to their configured values whenever falsy (`or`); the scope is then
built by the selected strategy (`jinja` asserts a templar is present);
`lookup` is called with `explain = None`; a `jinja` results pass renders
the whole result dict through the template engine in one call. The unused
`kwargs` parameter and the `jinja2_native` plumbing are folded into the
abstract `tplOpt`. -/
def super_lookup (cfg : PDict) (backend : List PyVal → PyVal → PyVal → PDict)
    (tplOpt : Option (PyVal → TplResult)) (host_vars : PDict)
    (keys nsArg scope psArg prArg : PyVal) : Except PyErr PyVal :=
  ebind (if psArg.truthy then .ok psArg else cfgItem cfg "process_scope") fun ps =>
  ebind (if prArg.truthy then .ok prArg else cfgItem cfg "process_results") fun pr =>
  ebind (if scope.truthy then .ok scope else cfgItem cfg "scope") fun scope =>
  ebind
    (if ps = .str "vars" then
      ebind (get_scope_from_host_inventory cfg host_vars scope) fun d =>
        .ok (PyVal.dict d)
    else if ps = .str "jinja" then
      match tplOpt with
      | some tpl =>
        ebind (get_scope_from_jinja cfg tpl scope) fun d => .ok (PyVal.dict d)
      | Option.none =>
        .error (.assertionError "BUG: We expected a templar object here, got: None")
    else .ok scope) fun scope =>
  ebind (lookup cfg backend keys nsArg scope PyVal.none) fun ret =>
  if pr = .str "jinja" then
    match tplOpt with
    | some tpl =>
      match tpl (.dict ret) with
      | .ok v => .ok v
      | .undef m => .error (.undefinedVariable m)
      | .err m => .error (.exception m)
    | Option.none => .error (.attributeError "template on None")
  else .ok (.dict ret)

deriving instance DecidableEq for Except

/-- Keys of a modelled dict are pairwise distinct (every dict the code
builds satisfies this: they grow only through `pdSet`). -/
def nodupKeys (d : PDict) : Prop := (d.map Prod.fst).Nodup

theorem pdGet_pdSet (d : PDict) (k v k' : PyVal) :
    pdGet (pdSet d k v) k' = if k' = k then some v else pdGet d k' := by
  induction d with
  | nil =>
    by_cases h : k' = k
    · subst h; simp [pdSet, pdGet]
    · simp [pdSet, pdGet, h, Ne.symm h]
  | cons p rest ih =>
    obtain ⟨a, w⟩ := p
    by_cases ha : a = k
    · subst ha
      by_cases h : k' = a
      · subst h; simp [pdSet, pdGet]
      · simp [pdSet, pdGet, h, Ne.symm h]
    · by_cases h : a = k'
      · subst h
        simp [pdSet, pdGet, ha]
      · simp [pdSet, pdGet, ha, h, ih]

theorem pdGet_pdSet_self (d : PDict) (k v : PyVal) :
    pdGet (pdSet d k v) k = some v := by
  simp [pdGet_pdSet]

theorem pdGet_pdDel_ne (d : PDict) (k k' : PyVal) (h : k' ≠ k) :
    pdGet (pdDel d k) k' = pdGet d k' := by
  induction d with
  | nil => simp [pdDel]
  | cons p rest ih =>
    obtain ⟨a, w⟩ := p
    by_cases ha : a = k
    · subst ha
      have hne : ¬ a = k' := fun hh => h hh.symm
      simp [pdDel, pdGet, hne]
    · simp [pdDel, pdGet, ha, ih]

theorem mem_keys_pdSet (d : PDict) (k v x : PyVal) :
    x ∈ (pdSet d k v).map Prod.fst ↔ x ∈ d.map Prod.fst ∨ x = k := by
  induction d with
  | nil => simp [pdSet]
  | cons p rest ih =>
    obtain ⟨a, w⟩ := p
    by_cases ha : a = k
    · subst ha; simp [pdSet]; tauto
    · simp [pdSet, ha, ih]; tauto

theorem nodupKeys_pdSet (d : PDict) (k v : PyVal) (h : nodupKeys d) :
    nodupKeys (pdSet d k v) := by
  induction d with
  | nil => simp [nodupKeys, pdSet]
  | cons p rest ih =>
    obtain ⟨a, w⟩ := p
    simp only [nodupKeys, List.map_cons, List.nodup_cons] at h
    by_cases ha : a = k
    · subst ha
      simpa [nodupKeys, pdSet] using h
    · have := ih h.2
      simp only [nodupKeys, pdSet, ha, if_false, List.map_cons, List.nodup_cons]
      refine ⟨?_, this⟩
      rw [mem_keys_pdSet]
      rintro (hm | rfl)
      · exact h.1 hm
      · exact ha rfl

theorem nodupKeys_pdUpdate (d1 d2 : PDict) (h : nodupKeys d1) :
    nodupKeys (pdUpdate d1 d2) := by
  induction d2 generalizing d1 with
  | nil => simpa [pdUpdate] using h
  | cons p rest ih =>
    obtain ⟨k, v⟩ := p
    exact ih _ (nodupKeys_pdSet _ _ _ h)

theorem pdGet_isSome_iff_mem (d : PDict) (k : PyVal) :
    (pdGet d k).isSome ↔ k ∈ d.map Prod.fst := by
  induction d with
  | nil => simp [pdGet]
  | cons p rest ih =>
    obtain ⟨a, w⟩ := p
    by_cases ha : a = k
    · subst ha; simp [pdGet]
    · simp [pdGet, ha, ih, Ne.symm ha]

theorem pdGet_eq_none_of_not_mem (d : PDict) (k : PyVal)
    (h : k ∉ d.map Prod.fst) : pdGet d k = Option.none := by
  have := (pdGet_isSome_iff_mem d k).not.mpr h
  cases hh : pdGet d k with
  | none => rfl
  | some v => exact absurd (by simp [hh]) this

theorem pdGet_pdUpdate (d1 d2 : PDict) (k : PyVal) (h : nodupKeys d2) :
    pdGet (pdUpdate d1 d2) k = (pdGet d2 k).orElse (fun _ => pdGet d1 k) := by
  induction d2 generalizing d1 with
  | nil => simp [pdUpdate, pdGet, Option.orElse]
  | cons p rest ih =>
    obtain ⟨a, w⟩ := p
    simp only [nodupKeys, List.map_cons, List.nodup_cons] at h
    rw [pdUpdate, ih _ h.2]
    by_cases ha : a = k
    · subst ha
      have : pdGet rest a = Option.none :=
        pdGet_eq_none_of_not_mem _ _ (by simpa [nodupKeys] using h.1)
      simp [pdGet, this, Option.orElse, pdGet_pdSet]
    · simp only [pdGet, ha, if_false]
      cases hr : pdGet rest k with
      | none => simp [Option.orElse, pdGet_pdSet, Ne.symm ha]
      | some v => simp [Option.orElse]

theorem pdGet_isSome_pdUpdate (d1 d2 : PDict) (k : PyVal)
    (h : (pdGet d1 k).isSome) : (pdGet (pdUpdate d1 d2) k).isSome := by
  induction d2 generalizing d1 with
  | nil => simpa [pdUpdate] using h
  | cons p rest ih =>
    obtain ⟨a, w⟩ := p
    refine ih _ ?_
    rw [pdGet_pdSet]
    by_cases hk : k = a <;> simp [hk, h]

/-- Shape test used to state claims about `parse_keys` dispatch. -/
def PyVal.isStr : PyVal → Bool
  | .str _ => true
  | _ => false

def PyVal.isList : PyVal → Bool
  | .list _ => true
  | _ => false

def PyVal.isDict : PyVal → Bool
  | .dict _ => true
  | _ => false

@[simp] theorem truthy_none : PyVal.none.truthy = false := rfl

theorem string_mk_data (s : String) : String.mk s.data = s := rfl

theorem string_data_append (a b : String) : (a ++ b).data = a.data ++ b.data := by
  cases a; cases b; rfl

theorem pySplitAux_ne_nil (sep : Char) :
    ∀ (l : List Char) (n : Nat) (acc : List Char), pySplitAux sep l n acc ≠ []
  | [], _, _ => by simp [pySplitAux]
  | c :: cs, n, acc => by
    by_cases h : c = sep
    · cases n with
      | zero => simpa [pySplitAux, h] using pySplitAux_ne_nil sep cs 0 (c :: acc)
      | succ m => simp [pySplitAux, h]
    · simpa [pySplitAux, h] using pySplitAux_ne_nil sep cs n (c :: acc)

theorem pySplitAux_zero (sep : Char) :
    ∀ (l : List Char) (acc : List Char),
      pySplitAux sep l 0 acc = [String.mk (acc.reverse ++ l)]
  | [], acc => by simp [pySplitAux]
  | c :: cs, acc => by
    rw [show pySplitAux sep (c :: cs) 0 acc = pySplitAux sep cs 0 (c :: acc) from by
      by_cases h : c = sep <;> simp [pySplitAux, h]]
    rw [pySplitAux_zero sep cs (c :: acc)]
    simp

theorem pySplitAux_no_sep (sep : Char) :
    ∀ (l : List Char) (n : Nat) (acc : List Char), sep ∉ l →
      pySplitAux sep l n acc = [String.mk (acc.reverse ++ l)]
  | [], _, acc, _ => by simp [pySplitAux]
  | c :: cs, n, acc, h => by
    have hc : ¬ c = sep := fun hh => h (by rw [← hh]; exact List.mem_cons_self c cs)
    rw [show pySplitAux sep (c :: cs) n acc = pySplitAux sep cs n (c :: acc) from by
      simp [pySplitAux, hc]]
    rw [pySplitAux_no_sep sep cs n (c :: acc) (fun hm => h (List.mem_cons_of_mem c hm))]
    simp

theorem pySplitAux_sep_head (sep : Char) :
    ∀ (la rest : List Char) (n : Nat) (acc : List Char), sep ∉ la →
      pySplitAux sep (la ++ sep :: rest) (n + 1) acc =
        String.mk (acc.reverse ++ la) :: pySplitAux sep rest n []
  | [], rest, n, acc, _ => by simp [pySplitAux]
  | c :: cs, rest, n, acc, h => by
    have hc : ¬ c = sep := fun hh => h (by rw [← hh]; exact List.mem_cons_self c cs)
    rw [List.cons_append]
    rw [show pySplitAux sep (c :: (cs ++ sep :: rest)) (n + 1) acc =
          pySplitAux sep (cs ++ sep :: rest) (n + 1) (c :: acc) from by
      simp [pySplitAux, hc]]
    rw [pySplitAux_sep_head sep cs rest n (c :: acc)
      (fun hm => h (List.mem_cons_of_mem c hm))]
    simp

theorem pySplit_ne_nil (s : String) (sep : Char) (maxsplit : Nat) :
    pySplit s sep maxsplit ≠ [] :=
  pySplitAux_ne_nil sep s.data maxsplit []

theorem sep_char_data : ("/" : String).data = ['/'] := rfl

theorem parse_string_no_sep (d : PyVal) (a : String) (ha : '/' ∉ a.data) :
    parse_string (.str a) d = { key := .str a, remap := .none, ns := d } := by
  have h : pySplit a '/' 3 = [a] := by
    rw [pySplit, pySplitAux_no_sep '/' a.data 3 [] ha]
    simp [string_mk_data]
  simp [parse_string, h]

theorem parse_string_one_sep (d : PyVal) (a b : String)
    (ha : '/' ∉ a.data) (hb : '/' ∉ b.data) :
    parse_string (.str (a ++ "/" ++ b)) d =
      { key := .str b, remap := .none, ns := .str a } := by
  have hd : (a ++ "/" ++ b).data = a.data ++ '/' :: b.data := by
    simp [string_data_append, sep_char_data]
  have h : pySplit (a ++ "/" ++ b) '/' 3 = [a, b] := by
    rw [pySplit, hd]
    rw [show (3 : Nat) = 2 + 1 from rfl]
    rw [pySplitAux_sep_head '/' a.data _ 2 [] ha]
    rw [pySplitAux_no_sep '/' b.data 2 [] hb]
    simp [string_mk_data]
  simp [parse_string, h]

theorem parse_string_two_sep (d : PyVal) (a b c : String)
    (ha : '/' ∉ a.data) (hb : '/' ∉ b.data) (hc : '/' ∉ c.data) :
    parse_string (.str (a ++ "/" ++ b ++ "/" ++ c)) d =
      { key := .str b, remap := .str c, ns := .str a } := by
  have hd : (a ++ "/" ++ b ++ "/" ++ c).data =
      a.data ++ '/' :: (b.data ++ '/' :: c.data) := by
    simp [string_data_append, sep_char_data]
  have h : pySplit (a ++ "/" ++ b ++ "/" ++ c) '/' 3 = [a, b, c] := by
    rw [pySplit, hd]
    rw [show (3 : Nat) = 2 + 1 from rfl]
    rw [pySplitAux_sep_head '/' a.data _ 2 [] ha]
    rw [show (2 : Nat) = 1 + 1 from rfl]
    rw [pySplitAux_sep_head '/' b.data _ 1 [] hb]
    rw [pySplitAux_no_sep '/' c.data 1 [] hc]
    simp [string_mk_data]
  simp [parse_string, h]

theorem parse_string_many_sep (d : PyVal) (a b c r : String)
    (ha : '/' ∉ a.data) (hb : '/' ∉ b.data) (hc : '/' ∉ c.data) :
    parse_string (.str (a ++ "/" ++ b ++ "/" ++ c ++ "/" ++ r)) d =
      { key := .str b, remap := .str c, ns := .str a } := by
  have hd : (a ++ "/" ++ b ++ "/" ++ c ++ "/" ++ r).data =
      a.data ++ '/' :: (b.data ++ '/' :: (c.data ++ '/' :: r.data)) := by
    simp [string_data_append, sep_char_data]
  have h : pySplit (a ++ "/" ++ b ++ "/" ++ c ++ "/" ++ r) '/' 3 =
      [a, b, c, r] := by
    rw [pySplit, hd]
    rw [show (3 : Nat) = 2 + 1 from rfl]
    rw [pySplitAux_sep_head '/' a.data _ 2 [] ha]
    rw [show (2 : Nat) = 1 + 1 from rfl]
    rw [pySplitAux_sep_head '/' b.data _ 1 [] hb]
    rw [show (1 : Nat) = 0 + 1 from rfl]
    rw [pySplitAux_sep_head '/' c.data _ 0 [] hc]
    rw [pySplitAux_zero '/' r.data []]
    simp [string_mk_data]
  simp [parse_string, h]

theorem parse_string_str_key_ne_none (s : String) (d : PyVal) :
    (parse_string (.str s) d).key ≠ PyVal.none := by
  rcases h : pySplit s '/' 3 with _ | ⟨p0, _ | ⟨p1, _ | ⟨p2, rest⟩⟩⟩
  · exact absurd h (pySplit_ne_nil s '/' 3)
  · simp [parse_string, h]
  · simp [parse_string, h]
  · simp [parse_string, h]

theorem env_config_go_congr (env1 env2 : String → Option String) :
    ∀ (items : List String) (acc : PDict),
      (∀ item ∈ items, env1 (kheops_envvar item) = env2 (kheops_envvar item)) →
      env_config_go env1 items acc = env_config_go env2 items acc
  | [], _, _ => rfl
  | item :: rest, acc, h => by
    have hh := h item (List.mem_cons_self item rest)
    have ht : ∀ i ∈ rest, env1 (kheops_envvar i) = env2 (kheops_envvar i) :=
      fun i hi => h i (List.mem_cons_of_mem item hi)
    simp only [env_config_go, hh]
    cases env2 (kheops_envvar item) with
    | none => exact env_config_go_congr env1 env2 rest acc ht
    | some v => exact env_config_go_congr env1 env2 rest _ ht

theorem env_config_congr (env1 env2 : String → Option String)
    (h : ∀ item ∈ env_items, env1 (kheops_envvar item) = env2 (kheops_envvar item)) :
    env_config env1 = env_config env2 :=
  env_config_go_congr env1 env2 env_items [] h

theorem nodupKeys_env_config_go (env : String → Option String) :
    ∀ (items : List String) (acc : PDict), nodupKeys acc →
      nodupKeys (env_config_go env items acc)
  | [], _, h => h
  | item :: rest, acc, h => by
    simp only [env_config_go]
    cases env (kheops_envvar item) with
    | none => exact nodupKeys_env_config_go env rest acc h
    | some v => exact nodupKeys_env_config_go env rest _ (nodupKeys_pdSet _ _ _ h)

theorem nodupKeys_env_config (env : String → Option String) :
    nodupKeys (env_config env) :=
  nodupKeys_env_config_go env env_items [] (by simp [nodupKeys])

theorem nodupKeys_load_sources_go (fs : String → Option PyVal) :
    ∀ (configs : List PyVal) (acc m : PDict), nodupKeys acc →
      load_sources_go fs acc configs = .ok m → nodupKeys m
  | [], acc, m, h, hr => by
    simp only [load_sources_go] at hr
    cases hr
    exact h
  | c :: rest, acc, m, h, hr => by
    cases c with
    | str p =>
      simp only [load_sources_go] at hr
      cases hfs : fs p with
      | none => rw [hfs] at hr; exact absurd hr (by simp)
      | some content =>
        rw [hfs] at hr
        cases content with
        | dict d =>
          exact nodupKeys_load_sources_go fs rest _ m (nodupKeys_pdUpdate _ _ h) hr
        | none => exact absurd hr (by simp)
        | bool b => exact absurd hr (by simp)
        | int n => exact absurd hr (by simp)
        | str s => exact absurd hr (by simp)
        | list xs => exact absurd hr (by simp)
    | dict d =>
      simp only [load_sources_go] at hr
      exact nodupKeys_load_sources_go fs rest _ m (nodupKeys_pdUpdate _ _ h) hr
    | none =>
      simp only [load_sources_go] at hr
      exact nodupKeys_load_sources_go fs rest acc m h hr
    | bool b => simp only [load_sources_go] at hr; exact absurd hr (by simp)
    | int n => simp only [load_sources_go] at hr; exact absurd hr (by simp)
    | list xs => simp only [load_sources_go] at hr; exact absurd hr (by simp)

theorem nodupKeys_default_config : nodupKeys default_config := by
  unfold nodupKeys
  decide

theorem cfgItem_pdSet_ne (cfg : PDict) (v : PyVal) (a b : String)
    (h : ¬ (PyVal.str b) = (PyVal.str a)) :
    cfgItem (pdSet cfg (.str a) v) b = cfgItem cfg b := by
  simp [cfgItem, pdGet_pdSet, h]

theorem isEmpty_false_of_pdGet_isSome (d : PDict) (k : PyVal)
    (h : (pdGet d k).isSome) : d.isEmpty = false := by
  cases d with
  | nil => simp [pdGet] at h
  | cons p rest => rfl

theorem parse_keys_dict_go_all_str (nsv : PyVal) :
    ∀ (pairs : List (PyVal × PyVal)),
      (∀ p ∈ pairs, p.2.truthy = true → p.2.isStr = true) →
      parse_keys_dict_go nsv pairs = .ok (pairs.map (fun p =>
        parse_string
          (if p.2.truthy then .str (pyStr p.1 ++ KEY_NS_SEP ++ pyStr p.2) else p.1)
          nsv))
  | [], _ => rfl
  | (k, v) :: rest, h => by
    have hrest : ∀ p ∈ rest, p.2.truthy = true → p.2.isStr = true :=
      fun p hp => h p (List.mem_cons_of_mem _ hp)
    have ih := parse_keys_dict_go_all_str nsv rest hrest
    cases hv : v.truthy with
    | false => simp [parse_keys_dict_go, hv, ih]
    | true =>
      have hs : v.isStr = true := h (k, v) (List.mem_cons_self _ _) hv
      cases v with
      | str s => simp [parse_keys_dict_go, hv, ih]
      | none => simp [PyVal.isStr] at hs
      | bool b => simp [PyVal.isStr] at hs
      | int n => simp [PyVal.isStr] at hs
      | list xs => simp [PyVal.isStr] at hs
      | dict xs => simp [PyVal.isStr] at hs

theorem parse_keys_dict_go_bad (nsv k v : PyVal)
    (hv : v.truthy = true) (hs : v.isStr = false) :
    ∀ (pairs1 pairs2 : List (PyVal × PyVal)),
      (∀ p ∈ pairs1, p.2.truthy = true → p.2.isStr = true) →
      parse_keys_dict_go nsv (pairs1 ++ (k, v) :: pairs2) =
        .error (.assertionError ("Need a string, got: " ++ pyStr v))
  | [], pairs2, _ => by
    cases v with
    | str s => simp [PyVal.isStr] at hs
    | none => simp [PyVal.truthy] at hv
    | bool b => simp [parse_keys_dict_go, hv]
    | int n => simp [parse_keys_dict_go, hv]
    | list xs => simp [parse_keys_dict_go, hv]
    | dict xs => simp [parse_keys_dict_go, hv]
  | (k', v') :: rest1, pairs2, h => by
    have hrest : ∀ p ∈ rest1, p.2.truthy = true → p.2.isStr = true :=
      fun p hp => h p (List.mem_cons_of_mem _ hp)
    have ih := parse_keys_dict_go_bad nsv k v hv hs rest1 pairs2 hrest
    cases hvt : v'.truthy with
    | false => simp [parse_keys_dict_go, hvt, ih]
    | true =>
      have hs' : v'.isStr = true := h (k', v') (List.mem_cons_self _ _) hvt
      cases v' with
      | str s => simp [parse_keys_dict_go, hvt, ih]
      | none => simp [PyVal.isStr] at hs'
      | bool b => simp [PyVal.isStr] at hs'
      | int n => simp [PyVal.isStr] at hs'
      | list xs => simp [PyVal.isStr] at hs'
      | dict xs => simp [PyVal.isStr] at hs'

theorem scope_from_jinja_go_error (tpl : PyVal → TplResult) :
    ∀ (pairs : List (PyVal × PyVal)) (acc : PDict) (p : PyVal × PyVal),
      p ∈ pairs → (∀ w, tpl p.2 ≠ .ok w) →
      ∃ e, scope_from_jinja_go tpl pairs acc = .error e
  | [], _, p, hp, _ => absurd hp (List.not_mem_nil p)
  | (k0, v0) :: rest, acc, p, hp, hne => by
    cases htp : tpl v0 with
    | ok w =>
      rcases List.mem_cons.mp hp with rfl | hm
      · exact absurd htp (hne w)
      · obtain ⟨e, he⟩ :=
          scope_from_jinja_go_error tpl rest (pdSet acc k0 w) p hm hne
        exact ⟨e, by simp [scope_from_jinja_go, htp, he]⟩
    | undef m => exact ⟨.undefinedVariable m, by simp [scope_from_jinja_go, htp]⟩
    | err m => exact ⟨.exception m, by simp [scope_from_jinja_go, htp]⟩

/-- Claim C9: `Key.show` on the KeySpec `(key="k", namespace="n",
remap=null)` produces `"n/k"`, and reparsing `"n/k"` with any default
namespace yields exactly `(key="k", namespace="n", remap=null)`. -/
theorem c9_show_parse_roundtrip :
    Key.render { key := .str "k", remap := .none, ns := .str "n" } = .str "n/k" ∧
    ∀ d : PyVal, parse_string (.str "n/k") d =
      { key := .str "k", remap := .none, ns := .str "n" } := by
  constructor
  · decide
  · intro d
    have h : pySplit "n/k" '/' 3 = ["n", "k"] := by decide
    simp [parse_string, h]

/-- Claim C3 counterexample: on `"a/b/c/d"` (three separators) the parsed
remap is the third segment `"c"`, not the entire remainder `"c/d"` after
the second separator as the claim states. -/
theorem c3_counterexample :
    parse_string (.str "a/b/c/d") (.str "ns") =
      { key := .str "b", remap := .str "c", ns := .str "a" } ∧
    ({ key := .str "b", remap := .str "c", ns := .str "a" } : Key) ≠
      { key := .str "b", remap := .str "c/d", ns := .str "a" } := by
  exact ⟨by decide, by decide⟩

/-- Claim C3 (amended): `parse_string` splits with maxsplit 3. With no
separator the whole string is the key and the namespace is the default;
with one separator the first segment is the namespace and the second the
key; with two or more separators the remap is the third segment — which
for exactly two separators is the entire remainder, but for three or more
separators excludes everything after the third separator. -/
theorem c3_parse_string_splits :
    (∀ (d : PyVal) (a : String), '/' ∉ a.data →
      parse_string (.str a) d = { key := .str a, remap := .none, ns := d }) ∧
    (∀ (d : PyVal) (a b : String), '/' ∉ a.data → '/' ∉ b.data →
      parse_string (.str (a ++ "/" ++ b)) d =
        { key := .str b, remap := .none, ns := .str a }) ∧
    (∀ (d : PyVal) (a b c : String), '/' ∉ a.data → '/' ∉ b.data → '/' ∉ c.data →
      parse_string (.str (a ++ "/" ++ b ++ "/" ++ c)) d =
        { key := .str b, remap := .str c, ns := .str a }) ∧
    (∀ (d : PyVal) (a b c r : String), '/' ∉ a.data → '/' ∉ b.data → '/' ∉ c.data →
      parse_string (.str (a ++ "/" ++ b ++ "/" ++ c ++ "/" ++ r)) d =
        { key := .str b, remap := .str c, ns := .str a }) :=
  ⟨parse_string_no_sep, parse_string_one_sep, parse_string_two_sep,
    parse_string_many_sep⟩

/-- Claim C4 counterexample: a mapping entry whose value is truthy but not
a string (here `{"k": 5}`) makes `parse_keys` fail with `AssertionError`,
instead of parsing the key `k` alone as the claim states for every
non-string value. -/
theorem c4_counterexample :
    parse_keys (.dict [(.str "k", .int 5)]) (.str "default") =
      .error (.assertionError "Need a string, got: 5") ∧
    parse_keys (.dict [(.str "k", .int 5)]) (.str "default") ≠
      .ok [parse_string (.str "k") (.str "default")] := by
  exact ⟨by decide, by decide⟩

/-- Claim C4 (amended): on a mapping, each `(k, v)` pair in iteration order
yields the composite string `k + separator + v` when `v` is a non-empty
string, and `k` alone when `v` is falsy; but a truthy non-string `v` fails
the whole call with `AssertionError` rather than parsing `k` alone. -/
theorem c4_parse_keys_mapping :
    (∀ (nsv : PyVal) (pairs : List (PyVal × PyVal)),
      (∀ p ∈ pairs, p.2.truthy = true → p.2.isStr = true) →
      parse_keys (.dict pairs) nsv = .ok (pairs.map (fun p =>
        parse_string
          (if p.2.truthy then .str (pyStr p.1 ++ KEY_NS_SEP ++ pyStr p.2) else p.1)
          nsv))) ∧
    (∀ (nsv k v : PyVal) (pairs1 pairs2 : List (PyVal × PyVal)),
      v.truthy = true → v.isStr = false →
      (∀ p ∈ pairs1, p.2.truthy = true → p.2.isStr = true) →
      parse_keys (.dict (pairs1 ++ (k, v) :: pairs2)) nsv =
        .error (.assertionError ("Need a string, got: " ++ pyStr v))) := by
  constructor
  · intro nsv pairs h
    exact parse_keys_dict_go_all_str nsv pairs h
  · intro nsv k v pairs1 pairs2 hv hs h
    exact parse_keys_dict_go_bad nsv k v hv hs pairs1 pairs2 h

/-- Claim C5 counterexample: the sequence `[{}]` (one mapping element with
no `key` field) is accepted by `parse_keys` and yields a KeySpec whose
`key` is null, so malformed elements are not rejected. -/
theorem c5_counterexample :
    parse_keys (.list [.dict []]) (.str "d") =
      .ok [{ key := .none, remap := .none, ns := .str "d" }] ∧
    ({ key := .none, remap := .none, ns := .str "d" } : Key).key = PyVal.none := by
  exact ⟨by decide, rfl⟩

/-- Claim C5 (amended): `parse_keys` raises `AnsibleError` exactly for
input that is not a string, sequence or mapping, and a string input always
yields KeySpecs with non-null keys; but malformed elements inside an
accepted sequence or mapping are not rejected and can yield a null key. -/
theorem c5_parse_keys_rejection :
    (∀ (data nsv : PyVal), data.isStr = false → data.isList = false →
      data.isDict = false →
      parse_keys data nsv = .error (.ansibleError "Unable to process Kheops keys: []")) ∧
    (∀ (s : String) (nsv : PyVal), ∃ ks, parse_keys (.str s) nsv = .ok ks ∧
      ∀ k ∈ ks, k.key ≠ PyVal.none) := by
  constructor
  · intro data nsv h1 h2 h3
    cases data with
    | none => rfl
    | bool b => rfl
    | int n => rfl
    | str s => simp [PyVal.isStr] at h1
    | list xs => simp [PyVal.isList] at h2
    | dict xs => simp [PyVal.isDict] at h3
  · intro s nsv
    refine ⟨[parse_string (.str s) nsv], rfl, ?_⟩
    intro k hk
    rw [List.mem_singleton] at hk
    subst hk
    exact parse_string_str_key_ne_none s nsv

/-- Claim C2 counterexample: a scope field whose template evaluation raises
a non-undefined-variable error makes the whole scope build fail, instead of
logging and keeping the literal expression text as the claim states. -/
theorem c2_counterexample :
    get_scope_from_jinja default_config
        (fun v => if v = .str "bad" then .err "boom" else .ok v)
        (.dict [(.str "a", .str "bad")]) = .error (.exception "boom") ∧
    get_scope_from_jinja default_config
        (fun v => if v = .str "bad" then .err "boom" else .ok v)
        (.dict [(.str "a", .str "bad")]) ≠ .ok [(.str "a", .str "bad")] := by
  exact ⟨by decide, by decide⟩

/-- Claim C2 (amended): in `get_scope_from_jinja` every template-evaluation
error aborts the whole scope build: an undefined-variable error on a field
propagates as `AnsibleUndefinedVariable`, any other evaluation error on a
field propagates uncaught, and whenever some field's evaluation does not
succeed the operation returns an error — no field ever falls back to its
unevaluated expression text. -/
theorem c2_scope_jinja_errors :
    (∀ (cfg : PDict) (tpl : PyVal → TplResult) (k v : PyVal) (m : String),
      tpl v = .undef m →
      get_scope_from_jinja cfg tpl (.dict [(k, v)]) =
        .error (.undefinedVariable m)) ∧
    (∀ (cfg : PDict) (tpl : PyVal → TplResult) (k v : PyVal) (m : String),
      tpl v = .err m →
      get_scope_from_jinja cfg tpl (.dict [(k, v)]) = .error (.exception m)) ∧
    (∀ (cfg : PDict) (tpl : PyVal → TplResult)
      (pairs : List (PyVal × PyVal)) (p : PyVal × PyVal),
      p ∈ pairs → (∀ w, tpl p.2 ≠ .ok w) →
      ∃ e, get_scope_from_jinja cfg tpl (.dict pairs) = .error e) := by
  refine ⟨?_, ?_, ?_⟩
  · intro cfg tpl k v m h
    simp [get_scope_from_jinja, PyVal.truthy, scope_from_jinja_go, h]
  · intro cfg tpl k v m h
    simp [get_scope_from_jinja, PyVal.truthy, scope_from_jinja_go, h]
  · intro cfg tpl pairs p hp hne
    have hnonempty : pairs ≠ [] := by
      intro hh
      subst hh
      exact absurd hp (List.not_mem_nil p)
    obtain ⟨e, he⟩ := scope_from_jinja_go_error tpl pairs [] p hp hne
    refine ⟨e, ?_⟩
    have ht : (PyVal.dict pairs).truthy = true := by
      cases pairs with
      | nil => exact absurd rfl hnonempty
      | cons q rest => simp [PyVal.truthy]
    simp [get_scope_from_jinja, ht, he]

/-- Claim C6: the effective configuration equals the schema defaults,
overridden by the allow-listed environment values, overridden by the
sources merged left-to-right shallowly: for every key the effective value
comes from the highest-precedence layer that defines it. -/
theorem c6_get_config_layering :
    ∀ (configs : List PyVal) (env : String → Option String)
      (fs : String → Option PyVal) (merged cfg : PDict),
      load_sources fs configs = .ok merged →
      get_config configs env fs = .ok cfg →
      ∀ name : PyVal,
        pdGet cfg name =
          ((pdGet merged name).orElse fun _ =>
            ((pdGet (env_config env) name).orElse fun _ =>
              pdGet default_config name)) := by
  intro configs env fs merged cfg h1 h2 name
  have hm : nodupKeys merged :=
    nodupKeys_load_sources_go fs configs [] merged (by simp [nodupKeys]) h1
  simp only [get_config, h1, Except.ok.injEq] at h2
  rw [← h2]
  rw [pdGet_pdUpdate _ _ _ hm]
  rw [pdGet_pdUpdate _ _ _ (nodupKeys_env_config env)]
  rw [pdGet_pdUpdate _ _ _ nodupKeys_default_config]
  cases pdGet merged name <;> cases pdGet (env_config env) name <;>
    cases pdGet default_config name <;> simp [pdGet, Option.orElse]

/-- Witness for C6 at a concrete source list, environment and option. -/
theorem c6_witness :
    pdGet (pdUpdate (pdUpdate (pdUpdate [] default_config)
        (env_config (fun _ => Option.none))) [(.str "namespace", .str "x")])
      (.str "namespace") =
      ((pdGet [(.str "namespace", .str "x")] (.str "namespace")).orElse fun _ =>
        ((pdGet (env_config (fun _ => Option.none)) (.str "namespace")).orElse fun _ =>
          pdGet default_config (.str "namespace"))) :=
  c6_get_config_layering [.dict [(.str "namespace", .str "x")]]
    (fun _ => Option.none) (fun _ => Option.none) [(.str "namespace", .str "x")]
    (pdUpdate (pdUpdate (pdUpdate [] default_config)
      (env_config (fun _ => Option.none))) [(.str "namespace", .str "x")])
    (by decide) (by decide) (.str "namespace")

/-- Claim C7: the process environment influences `get_config` only through
the seven allow-listed variables `ANSIBLE_KHEOPS_` + uppercased option
name: two environments agreeing on those produce identical effective
configurations on the same sources. -/
theorem c7_env_noninterference :
    ∀ (configs : List PyVal) (fs : String → Option PyVal)
      (env1 env2 : String → Option String),
      (∀ item ∈ env_items, env1 (kheops_envvar item) = env2 (kheops_envvar item)) →
      get_config configs env1 fs = get_config configs env2 fs := by
  intro configs fs env1 env2 h
  have he : env_config env1 = env_config env2 := env_config_congr env1 env2 h
  simp only [get_config, he]

/-- Witness for C7: an environment with only an unlisted variable set
yields the same configuration as the empty environment. -/
theorem c7_witness :
    get_config [] (fun _ => Option.none) (fun _ => Option.none) =
      get_config []
        (fun v => if v = "ANSIBLE_UNRELATED_SETTING" then some "x" else Option.none)
        (fun _ => Option.none) :=
  c7_env_noninterference [] (fun _ => Option.none) (fun _ => Option.none)
    (fun v => if v = "ANSIBLE_UNRELATED_SETTING" then some "x" else Option.none)
    (by decide)

/-- Claim C8: whenever `get_config` returns, its result has an entry for
every option declared in the option schema. -/
theorem c8_config_covers_schema :
    ∀ (configs : List PyVal) (env : String → Option String)
      (fs : String → Option PyVal) (cfg : PDict),
      get_config configs env fs = .ok cfg →
      ∀ name ∈ default_config.map Prod.fst, (pdGet cfg name).isSome = true := by
  intro configs env fs cfg h2 name hmem
  cases hl : load_sources fs configs with
  | error e =>
    simp only [get_config, hl] at h2
    exact absurd h2 (by simp)
  | ok merged =>
    simp only [get_config, hl, Except.ok.injEq] at h2
    rw [← h2]
    have h0 : (pdGet (pdUpdate [] default_config) name).isSome = true := by
      rw [pdGet_pdUpdate _ _ _ nodupKeys_default_config]
      have hsome : (pdGet default_config name).isSome = true :=
        (pdGet_isSome_iff_mem default_config name).mpr hmem
      cases hx : pdGet default_config name with
      | none => rw [hx] at hsome; simp at hsome
      | some v => simp [Option.orElse]
    exact pdGet_isSome_pdUpdate _ _ _ (pdGet_isSome_pdUpdate _ _ _ h0)

/-- Witness for C8 at a concrete run and the `mode` option. -/
theorem c8_witness :
    (pdGet (pdUpdate (pdUpdate (pdUpdate [] default_config)
        (env_config (fun _ => Option.none))) []) (.str "mode")).isSome = true :=
  c8_config_covers_schema [] (fun _ => Option.none) (fun _ => Option.none)
    (pdUpdate (pdUpdate (pdUpdate [] default_config)
      (env_config (fun _ => Option.none))) [])
    (by decide) (.str "mode") (by decide)

/-- Claim C1 counterexample: with keys spec
`{key: role, remap: server_role, namespace: default}` and backend result
`{"default/role": "web"}`, `lookup` raises `KeyError('role')` — the remap
step reads the entry under the bare key — instead of returning
`{"server_role": "web"}` as the claim's scenario states. -/
theorem c1_counterexample :
    lookup default_config (fun _ _ _ => [(.str "default/role", .str "web")])
      (.list [.dict [(.str "key", .str "role"), (.str "remap", .str "server_role"),
                     (.str "namespace", .str "default")]]) .none .none .none
      = .error (.keyError (.str "role")) ∧
    lookup default_config (fun _ _ _ => [(.str "default/role", .str "web")])
      (.list [.dict [(.str "key", .str "role"), (.str "remap", .str "server_role"),
                     (.str "namespace", .str "default")]]) .none .none .none
      ≠ .ok [(.str "server_role", .str "web")] := by
  exact ⟨by decide, by decide⟩

/-- Claim C1 (amended): for a KeySpec whose remap is set and differs from
its key, `lookup` renames the backend-result entry stored under the bare
key to the remap name and deletes the original (failing with `KeyError`
when no entry exists under the bare key); backend result `{"x": 1}` with
spec `{key: x, remap: y}` gives `{"y": 1}`, and the remap scenario yields
`{"server_role": "web"}` when the backend result is keyed by the bare key
`role`. -/
theorem c1_lookup_remap :
    (∀ (d : PDict) (kk r nsv : String) (v : PyVal),
      pdGet d (.str kk) = some v → r ≠ kk →
      lookup default_config (fun _ _ _ => d)
        (.list [.dict [(.str "key", .str kk), (.str "remap", .str r),
                       (.str "namespace", .str nsv)]]) .none .none .none =
        .ok (pdDel (pdSet d (.str r) v) (.str kk))) ∧
    (lookup default_config (fun _ _ _ => [(.str "x", .int 1)])
      (.list [.dict [(.str "key", .str "x"), (.str "remap", .str "y")]])
      .none .none .none = .ok [(.str "y", .int 1)]) ∧
    (lookup default_config (fun _ _ _ => [(.str "role", .str "web")])
      (.list [.dict [(.str "key", .str "role"), (.str "remap", .str "server_role"),
                     (.str "namespace", .str "default")]]) .none .none .none =
      .ok [(.str "server_role", .str "web")]) := by
  refine ⟨?_, by decide, by decide⟩
  intro d kk r nsv v hget hne
  have e1 : cfgItem default_config "instance_explain" = .ok (.bool false) := by
    decide
  have e2 : cfgItem default_config "namespace" = .ok (.str "default") := by decide
  have e3 : cfgItem default_config "scope" =
      .ok (.dict [(.str "node", .str "inventory_hostname"),
                  (.str "groups", .str "group_names")]) := by decide
  have hpk : parse_keys
      (.list [.dict [(.str "key", .str kk), (.str "remap", .str r),
                     (.str "namespace", .str nsv)]]) (.str "default") =
      .ok [{ key := .str kk, remap := .str r, ns := .str nsv }] := by
    simp [parse_keys, parse_string, pdGet]
  have hne' : ¬ (PyVal.str r = PyVal.str kk) := by simpa using hne
  have hrs : remap_step d { key := .str kk, remap := .str r, ns := .str nsv } =
      .ok (pdDel (pdSet d (.str r) v) (.str kk)) := by
    simp [remap_step, hne', hget]
  have hget2 : pdGet (pdDel (pdSet d (.str r) v) (.str kk)) (.str r) = some v := by
    rw [pdGet_pdDel_ne _ _ _ hne']
    exact pdGet_pdSet_self d (.str r) v
  have hemp : (pdDel (pdSet d (.str r) v) (.str kk)).isEmpty = false :=
    isEmpty_false_of_pdGet_isSome (pdDel (pdSet d (.str r) v) (.str kk)) (.str r)
      (by simp [hget2])
  simp [lookup, e1, e2, e3, hpk, remapAll, hrs, hemp, PyVal.truthy]

/-- Claim C10 counterexample: an explicitly supplied falsy `explain`
(`False`) is kept even though the configured default `instance_explain` is
`True` — `explain` falls back on `None`, not on falsiness. -/
theorem c10_counterexample :
    lookup (pdSet default_config (.str "instance_explain") (.bool true))
      (fun _ _ e => [(.str "explain", e)]) (.str "k") .none .none (.bool false)
      = .ok [(.str "explain", .bool false)] ∧
    lookup (pdSet default_config (.str "instance_explain") (.bool true))
      (fun _ _ e => [(.str "explain", e)]) (.str "k") .none .none (.bool false)
      ≠ .ok [(.str "explain", .bool true)] := by
  exact ⟨by decide, by decide⟩

/-- Claim C10 (amended): in `lookup` the fallbacks for namespace, scope and
keys are decided by truthiness (any falsy argument behaves as an absent
one), and likewise in `super_lookup` for the process-scope and
process-results selectors and the scope; but `explain` falls back to the
configured `instance_explain` only when it is `None` — a non-`None`
`explain` makes the configured value irrelevant. -/
theorem c10_falsy_fallbacks :
    (∀ (cfg : PDict) (b : List PyVal → PyVal → PyVal → PDict)
      (keys nsv scope e : PyVal), nsv.truthy = false →
      lookup cfg b keys nsv scope e = lookup cfg b keys .none scope e) ∧
    (∀ (cfg : PDict) (b : List PyVal → PyVal → PyVal → PDict)
      (keys nsv scope e : PyVal), scope.truthy = false →
      lookup cfg b keys nsv scope e = lookup cfg b keys nsv .none e) ∧
    (∀ (cfg : PDict) (b : List PyVal → PyVal → PyVal → PDict)
      (keys nsv scope e : PyVal), keys.truthy = false →
      lookup cfg b keys nsv scope e = lookup cfg b .none nsv scope e) ∧
    (∀ (cfg : PDict) (b : List PyVal → PyVal → PyVal → PDict)
      (keys nsv scope : PyVal),
      lookup cfg b keys nsv scope .none =
        lookup cfg b keys nsv scope ((pdGet cfg (.str "instance_explain")).getD .none)) ∧
    (∀ (cfg : PDict) (b : List PyVal → PyVal → PyVal → PDict)
      (keys nsv scope e w : PyVal), e ≠ PyVal.none →
      lookup (pdSet cfg (.str "instance_explain") w) b keys nsv scope e =
        lookup cfg b keys nsv scope e) ∧
    (∀ (cfg : PDict) (b : List PyVal → PyVal → PyVal → PDict)
      (tplOpt : Option (PyVal → TplResult)) (hv : PDict)
      (keys nsv scope ps pr : PyVal), ps.truthy = false →
      super_lookup cfg b tplOpt hv keys nsv scope ps pr =
        super_lookup cfg b tplOpt hv keys nsv scope .none pr) ∧
    (∀ (cfg : PDict) (b : List PyVal → PyVal → PyVal → PDict)
      (tplOpt : Option (PyVal → TplResult)) (hv : PDict)
      (keys nsv scope ps pr : PyVal), pr.truthy = false →
      super_lookup cfg b tplOpt hv keys nsv scope ps pr =
        super_lookup cfg b tplOpt hv keys nsv scope ps .none) ∧
    (∀ (cfg : PDict) (b : List PyVal → PyVal → PyVal → PDict)
      (tplOpt : Option (PyVal → TplResult)) (hv : PDict)
      (keys nsv scope ps pr : PyVal), scope.truthy = false →
      super_lookup cfg b tplOpt hv keys nsv scope ps pr =
        super_lookup cfg b tplOpt hv keys nsv .none ps pr) := by
  refine ⟨?_, ?_, ?_, ?_, ?_, ?_, ?_, ?_⟩
  · intro cfg b keys nsv scope e h
    simp [lookup, h]
  · intro cfg b keys nsv scope e h
    simp [lookup, h]
  · intro cfg b keys nsv scope e h
    simp [lookup, h]
  · intro cfg b keys nsv scope
    simp only [lookup]
    congr 1
    simp only [eq_self_iff_true, if_true]
    cases hx : pdGet cfg (.str "instance_explain") with
    | none => simp [cfgItem, hx]
    | some u =>
      by_cases hu : u = PyVal.none
      · subst hu; simp [cfgItem, hx]
      · simp [cfgItem, hx, hu]
  · intro cfg b keys nsv scope e w h
    have n1 : cfgItem (pdSet cfg (.str "instance_explain") w) "namespace" =
        cfgItem cfg "namespace" := cfgItem_pdSet_ne cfg w _ _ (by decide)
    have n2 : cfgItem (pdSet cfg (.str "instance_explain") w) "scope" =
        cfgItem cfg "scope" := cfgItem_pdSet_ne cfg w _ _ (by decide)
    have n3 : cfgItem (pdSet cfg (.str "instance_explain") w) "keys" =
        cfgItem cfg "keys" := cfgItem_pdSet_ne cfg w _ _ (by decide)
    simp [lookup, h, n1, n2, n3]
  · intro cfg b tplOpt hv keys nsv scope ps pr h
    simp [super_lookup, h]
  · intro cfg b tplOpt hv keys nsv scope ps pr h
    simp [super_lookup, h]
  · intro cfg b tplOpt hv keys nsv scope ps pr h
    simp [super_lookup, h]
